import Mathlib

/-!
Shallow embedding of `src/tools/validate/src/rules/preamble.ts`, the preamble
(front-matter) validation rule of this repository.

The rule receives one AST node of kind `yaml` carrying the raw front-matter
text.  It parses the text with the external YAML library, narrows the decoded
value with `assertIsPreamble` (any throw inside the try block is caught and
reported as a single "not proper YAML" diagnostic), and then runs a sequence
of field-level checks, each reporting diagnostics through `context.report`.

Modelling decisions:
  - `JsValue` / `TopValue` model the values the YAML library can return; the
    library itself is external to the repository, so the parse outcome
    (`ParseOutcome`) is an input of the embedded handler.
  - A decoded JS object is modelled as its `Object.entries` list in JS
    enumeration order; a decoded JS array is converted to its index/value
    entry list (in JS, `typeof [] === "object"`, so arrays pass the object
    guard of `assertIsPreamble` and are then observed only through
    `Object.keys`/`Object.entries`, property lookups and the `in` operator,
    all of which the entry list reproduces).
  - Diagnostics are an inductive type `Diag`, one constructor per `report`
    call site; `Diag.message` renders the exact source message strings.
  - The regexes (`ISO8601`, `HEADERS_REGEX`, `AUTHOR`, `GITHUB_USERNAME`,
    `EMAIL`) are embedded as executable character-list matchers; an anchored
    backtracking regex matches a string exactly when some decomposition of
    the string fits the pattern, which is what the matchers decide.
  - JS operations that can throw after the try/catch block (`.match`/`.split`
    on a value cast to string) are modelled in `Except String`; everything
    else is pure.
-/

/-- Model of a JS value appearing as a field value of the decoded object.
`typeofJs` below is the JS `typeof` operator on it; no other observation of
non-primitive payloads occurs in the rule, so `arrv`/`objv` carry none. -/
inductive JsValue where
  | num (n : Int)
  | str (s : String)
  | boolv (b : Bool)
  | nullv
  | arrv
  | objv
  deriving DecidableEq, Repr

/-- JS `typeof` (note `typeof null === "object"`). -/
def typeofJs : JsValue → String
  | .num _ => "number"
  | .str _ => "string"
  | .boolv _ => "boolean"
  | .nullv => "object"
  | .arrv => "object"
  | .objv => "object"

/-- Model of the top-level value returned by `YAML.parse`. -/
inductive TopValue where
  | scalarNum (n : Int)
  | scalarStr (s : String)
  | scalarBool (b : Bool)
  | nullTop
  | arrTop (elems : List JsValue)
  | objTop (fields : List (String × JsValue))
  deriving DecidableEq, Repr

/-- Outcome of `YAML.parse(node.value)`: either the parser throws, or it
returns a value. -/
inductive ParseOutcome where
  | parseError
  | value (v : TopValue)
  deriving DecidableEq, Repr

/-- `HEADER_TYPES` from the source: declared primitive type per header.
Note `category` has no entry. -/
def HEADER_TYPES : List (String × String) :=
  [("sip", "number"), ("title", "string"), ("status", "string"),
   ("author", "string"), ("created", "string"), ("updated", "string")]

/-- `HEADER_TYPES.get(h)` when `HEADER_TYPES.has(h)`. -/
def headerTypeOf (h : String) : Option String :=
  (HEADER_TYPES.find? (fun p => p.1 == h)).map (fun p => p.2)

/-- `HEADER_ORDER` from the source. -/
def HEADER_ORDER : List String :=
  ["sip", "title", "status", "category", "author", "created", "updated"]

/-- `HEADER_REQUIRED` from the source (a `Set`; modelled as its insertion
order list). -/
def HEADER_REQUIRED : List String :=
  ["sip", "title", "status", "category", "author", "created"]

/-- `HEADER_OPTIONAL` from the source. -/
def HEADER_OPTIONAL : List String := ["updated"]

/-- `HEADER_ALL = HEADER_REQUIRED ∪ HEADER_OPTIONAL` from the source. -/
def HEADER_ALL : List String := HEADER_REQUIRED ++ HEADER_OPTIONAL

/-- `HEADER_DATES` from the source. -/
def HEADER_DATES : List String := ["created", "updated"]

/-- `STATUES` from the source (sic). -/
def STATUES : List String := ["Draft", "Review", "Final", "Withdrawn", "Living"]

/-- `CATEGORIES` from the source. -/
def CATEGORIES : List String := ["Core", "Blockchain", "Meta"]

/-- One diagnostic per `context.report` call site of the rule. -/
inductive Diag where
  | yamlInvalid
  | missingRequired (h : String)
  | unknownHeader (h : String)
  | orderViolation (h : String)
  | invalidDate (h : String)
  | invalidStatus
  | missingUpdated
  | invalidCategory
  | malformedAuthor
  | noGithub
  deriving DecidableEq, Repr

/-- The exact `message` string each report site passes to `context.report`. -/
def Diag.message : Diag → String
  | .yamlInvalid => "The front-matter is not proper YAML"
  | .missingRequired h => "Required header \"" ++ h ++ "\" is missing from preamble."
  | .unknownHeader h => "Preamble has unknown header \"" ++ h ++ "\"."
  | .orderViolation h => "Preamble header \"" ++ h ++ "\" is not in proper order"
  | .invalidDate h => "Preamble header \"" ++ h ++ "\" is not a valid date in ISO 8601 format"
  | .invalidStatus => "Header \"status\" is not a valid status"
  | .missingUpdated => "SIP has status of \"living\" but doesn\x27t have \"updated\" header"
  | .invalidCategory => "Header \"category\" is not a valid category"
  | .malformedAuthor => "Preamble header \"author\" is malformed"
  | .noGithub => "Preamble header \"author\" doesn\x27t have at least one github account"

/-! ## Character classes of the source regexes -/

/-- JS regex `\d`. -/
def isDigitChar (c : Char) : Bool := '0' ≤ c && c ≤ '9'

/-- JS regex `[a-z]`. -/
def isLowerAZ (c : Char) : Bool := 'a' ≤ c && c ≤ 'z'

/-- JS regex `[a-zA-Z\d]` (the `GITHUB_USERNAME` alphabet). -/
def isAsciiAlnum (c : Char) : Bool :=
  ('a' ≤ c && c ≤ 'z') || ('A' ≤ c && c ≤ 'Z') || isDigitChar c

/-- JS regex `\w`, i.e. `[A-Za-z0-9_]`. -/
def isWordChar (c : Char) : Bool := isAsciiAlnum c || c == '_'

/-- JS regex `\s` (whitespace); ASCII whitespace plus the common Unicode
line/space separators that can realistically occur here. -/
def isJsSpace (c : Char) : Bool :=
  c == ' ' || c == '\t' || c == '\n' || c == '\r' || c == '\x0b' || c == '\x0c' ||
  c == '\u00A0' || c == '\u2028' || c == '\u2029'

/-- JS line terminators: what `.` does not match and what `^`/`$` anchor at
under the `m` flag. -/
def isLineTerm (c : Char) : Bool :=
  c == '\n' || c == '\r' || c == '\u2028' || c == '\u2029'

/-! ## The `ISO8601` regex and `isValidDate` -/

/-- Digit character to its numeric value. -/
def digitVal (c : Char) : Nat := c.toNat - 48

/-- `Number()` of a two-digit capture. -/
def num2 (a b : Char) : Nat := digitVal a * 10 + digitVal b

/-- `Number()` of a four-digit capture. -/
def num4 (a b c d : Char) : Nat :=
  ((digitVal a * 10 + digitVal b) * 10 + digitVal c) * 10 + digitVal d

/-- `data.match(ISO8601)` where `ISO8601 = /^(\d\d\d\d)\-(\d\d)\-(\d\d)$/`:
anchored on both sides, so the string must be exactly ten characters, and on
success the three numeric captures are returned (the named groups are always
defined on a successful match, so the `undefined` guards of `isValidDate`
never fire). -/
def matchISO8601 : List Char → Option (Nat × Nat × Nat)
  | [y1, y2, y3, y4, '-', m1, m2, '-', d1, d2] =>
    if isDigitChar y1 && isDigitChar y2 && isDigitChar y3 && isDigitChar y4 &&
       isDigitChar m1 && isDigitChar m2 && isDigitChar d1 && isDigitChar d2
    then some (num4 y1 y2 y3 y4, num2 m1 m2, num2 d1 d2)
    else none
  | _ => none

/-- The `new Date()` components read by `isValidDate`: `getFullYear()`,
`getMonth() + 1`, `getDate()`. -/
structure JsNow where
  year : Nat
  month : Nat
  day : Nat
  deriving DecidableEq, Repr

/-- `isValidDate` from the source: pattern match plus component-wise
comparison against the current date. -/
def isValidDate (now : JsNow) (data : String) : Bool :=
  match matchISO8601 data.data with
  | none => false
  | some (y, m, d) => y ≤ now.year && m ≤ now.month && d ≤ now.day

/-! ## The `AUTHOR` regex -/

/-- Tail of `GITHUB_USERNAME` after its first character:
`(?:[a-zA-Z\d]|-(?=[a-zA-Z\d]))*` — each step consumes one alphanumeric, or
one hyphen whose lookahead requires the next character to be alphanumeric. -/
def ghTail : List Char → Bool
  | [] => true
  | c :: rest =>
    if isAsciiAlnum c then ghTail rest
    else if c == '-' then
      match rest with
      | [] => false
      | d :: _ => isAsciiAlnum d && ghTail rest
    else false

/-- `GITHUB_USERNAME = [a-zA-Z\d](?:[a-zA-Z\d]|-(?=[a-zA-Z\d])){0,38}`,
matched against a whole segment: leading alphanumeric, then at most 38 more
characters via `ghTail`. -/
def isGithubUsername (cs : List Char) : Bool :=
  match cs with
  | [] => false
  | c :: rest => isAsciiAlnum c && rest.length ≤ 38 && ghTail rest

/-- The capture `(\(\@GITHUB_USERNAME\))` matched against a whole segment:
literally `(@`, a username, `)`. -/
def handleSuffix : List Char → Bool
  | '(' :: '@' :: rest =>
    match rest with
    | [] => false
    | _ :: _ => rest.getLast? == some ')' && isGithubUsername rest.dropLast
  | _ => false

/-- `EMAIL = .+@.+` matched against a whole segment: no line terminators, and
some `@` with at least one character on each side. -/
def isEmail (cs : List Char) : Bool :=
  cs.all (fun c => !isLineTerm c) &&
  (List.range cs.length).any (fun i =>
    cs.getD i ' ' == '@' && decide (0 < i) && decide (i + 1 < cs.length))

/-- What may follow the `\>` of the email alternative:
`(?: (\(\@GITHUB_USERNAME\)))?$` — nothing, or a space and a handle. -/
def afterEmail : List Char → Bool
  | [] => true
  | ' ' :: rest => handleSuffix rest
  | _ => false

/-- The email alternative ` (?:\<EMAIL\>(?: (\(\@GH\)))?)` matched against a
whole segment: a space, `<`, an email up to some `>`, then `afterEmail`. -/
def emailSuffix : List Char → Bool
  | ' ' :: '<' :: rest =>
    (List.range rest.length).any (fun i =>
      rest.getD i ' ' == '>' && isEmail (rest.take i) && afterEmail (rest.drop (i + 1)))
  | _ => false

/-- JS regex `[.\w\s]`, the continuation class of the display name. -/
def nameTailChar (c : Char) : Bool := c == '.' || isWordChar c || isJsSpace c

/-- After the mandatory first `\w` of `AUTHOR`: keep consuming `[.\w\s]*`, or
stop and match the optional `(?: <email alt>|<handle alt>)?` suffix followed
by `$`.  The disjunction over all stopping points is exactly backtracking. -/
def authorTail : List Char → Bool
  | [] => true
  | c :: rest =>
    (nameTailChar c && authorTail rest) ||
    emailSuffix (c :: rest) || handleSuffix (c :: rest)

/-- `author.match(AUTHOR) !== null` for the full `AUTHOR` regex
`^\w[.\w\s]*(?: (?:\<EMAIL\>(?: (\(\@GH\)))?)|(\(\@GH\)))?$`. -/
def authorMatches (s : String) : Bool :=
  match s.data with
  | [] => false
  | c :: rest => isWordChar c && authorTail rest

/-! ## String splitting, trimming, keys -/

/-- Split a character list at every separator, JS style: `n` separators give
`n + 1` (possibly empty) segments; the result is never empty. -/
def splitOnPred (p : Char → Bool) : List Char → List (List Char)
  | [] => [[]]
  | c :: rest =>
    if p c then [] :: splitOnPred p rest
    else
      match splitOnPred p rest with
      | [] => [[c]]
      | h :: t => (c :: h) :: t

/-- JS `author.split(",")`. -/
def jsSplitComma (s : String) : List String :=
  (splitOnPred (fun c => c == ',') s.data).map (fun l => String.mk l)

/-- JS `String.prototype.trim` (strips leading/trailing whitespace). -/
def jsTrim (s : String) : String :=
  String.mk (((s.data.dropWhile isJsSpace).reverse.dropWhile isJsSpace).reverse)

/-- First component of each entry, deduplicated keeping first occurrences:
`Object.keys` order fed through `new Set(...)`. -/
def dedupKeys (seen : List String) : List String → List String
  | [] => []
  | h :: t => if seen.contains h then dedupKeys seen t else h :: dedupKeys (h :: seen) t

/-- `new Set(Object.keys(preamble))` as an insertion-order list. -/
def jsKeys (fields : List (String × JsValue)) : List String :=
  dedupKeys [] (fields.map (fun p => p.1))

/-- JS property lookup `preamble[k]` (first entry with that key). -/
def jsFind (fields : List (String × JsValue)) (k : String) : Option JsValue :=
  (fields.find? (fun p => p.1 == k)).map (fun p => p.2)

/-! ## `assertIsPreamble` -/

/-- The `Object.entries(preamble).forEach` type-check loop of
`assertIsPreamble`: throws (via the `Error` the callback raises, which
propagates out of `forEach`) at the first entry whose declared type
disagrees with `typeof value`. -/
def checkTypes : List (String × JsValue) → Except String Unit
  | [] => .ok ()
  | (h, v) :: rest =>
    match headerTypeOf h with
    | none => checkTypes rest
    | some t =>
      if typeofJs v = t then checkTypes rest
      else .error ("Parsed header \"" ++ h ++ "\" has wrong type. Has \"" ++
                   typeofJs v ++ "\", should be \"" ++ t ++ "\"")

/-- `Object.entries` of a decoded JS array: index keys (as strings) in
ascending order. -/
def arrEntries (elems : List JsValue) : List (String × JsValue) :=
  elems.enum.map (fun p => (toString p.1, p.2))

/-- `assertIsPreamble` from the source.  `typeof preamble !== "object" ||
preamble === null` throws; note a JS array has `typeof === "object"` and so
passes the guard, after which it is observed through its index entries. -/
def assertIsPreamble : TopValue → Except String (List (String × JsValue))
  | .objTop fields =>
    match checkTypes fields with
    | .error e => .error e
    | .ok _ => .ok fields
  | .arrTop elems =>
    match checkTypes (arrEntries elems) with
    | .error e => .error e
    | .ok _ => .ok (arrEntries elems)
  | _ => .error "Preamble is not YAML object"

/-! ## Schema checks -/

/-- The required-header loop: one diagnostic per required header missing from
the key set, in `HEADER_REQUIRED` iteration order. -/
def requiredDiags (fields : List (String × JsValue)) : List Diag :=
  HEADER_REQUIRED.filterMap (fun r =>
    if (jsKeys fields).contains r then none else some (Diag.missingRequired r))

/-- The unknown-header loop: one diagnostic per key outside `HEADER_ALL`, in
key insertion order. -/
def unknownDiags (fields : List (String × JsValue)) : List Diag :=
  (jsKeys fields).filterMap (fun h =>
    if HEADER_ALL.contains h then none else some (Diag.unknownHeader h))

/-! ## The order check -/

/-- One line of `HEADERS_REGEX = /^([a-z]+):.+$/m` applied at a line start:
the maximal `[a-z]+` run must be nonempty and be followed by `:` and at
least one more character before the line end (shorter runs cannot match
since the character after them is another lowercase letter, not `:`).
Returns the capture. -/
def lineCapture (line : List Char) : Option String :=
  let p := line.takeWhile isLowerAZ
  if p.isEmpty then none
  else
    match line.dropWhile isLowerAZ with
    | ':' :: (_ :: _) => some (String.mk p)
    | _ => none

/-- `HEADERS_REGEX.exec(node.value)`: the regex has no `g` flag, so `exec`
returns only the leftmost match, i.e. the capture of the first line that
matches. -/
def firstHeaderCapture (raw : String) : Option String :=
  (splitOnPred isLineTerm raw.data).findSome? lineCapture

/-- `HEADERS_REGEX.exec(node.value)?.slice(1) ?? []`: the singleton list of
the one capture group, or `[]` when there is no match. -/
def orderedHeaders (raw : String) : List String :=
  match firstHeaderCapture raw with
  | none => []
  | some h => [h]

/-- Property names a JS string could collide with when used as the left
operand of `in` on an `Array` instance: index keys are handled separately in
`jsInArray`; these are `length` plus the `Array.prototype` and
`Object.prototype` properties. -/
def ARRAY_PROTO_PROPS : List String :=
  ["length", "constructor", "at", "concat", "copyWithin", "fill", "find",
   "findIndex", "findLast", "findLastIndex", "lastIndexOf", "pop", "push",
   "reverse", "shift", "unshift", "slice", "sort", "splice", "includes",
   "indexOf", "join", "keys", "entries", "values", "forEach", "filter",
   "flat", "flatMap", "map", "every", "some", "reduce", "reduceRight",
   "toLocaleString", "toString", "toReversed", "toSorted", "toSpliced",
   "with", "hasOwnProperty", "isPrototypeOf", "propertyIsEnumerable",
   "valueOf"]

/-- The JS `in` operator applied to an array: `k in arr` holds when `k` is a
valid index key (`"0"`, `"1"`, ...) of the array or a property of the array
object or its prototype chain. -/
def jsInArray (k : String) (arr : List String) : Bool :=
  (List.range arr.length).any (fun i => k == toString i) ||
  ARRAY_PROTO_PROPS.contains k

/-- The order-check loop body: walk the extracted headers with index
`orderIndex`; the guard is `HEADER_ORDER[orderIndex] in orderedHeaders &&
header !== HEADER_ORDER[orderIndex]` (for `orderIndex` past the end,
`HEADER_ORDER[orderIndex]` is `undefined`, coerced to the property name
`"undefined"` by `in`); report once and break on the first hit. -/
def orderLoop (arr : List String) : List String → Nat → List Diag
  | [], _ => []
  | h :: rest, i =>
    if jsInArray (HEADER_ORDER.getD i "undefined") arr &&
       h != HEADER_ORDER.getD i "undefined"
    then [Diag.orderViolation h]
    else orderLoop arr rest (i + 1)

/-- The full order check over the raw front-matter text. -/
def orderCheck (raw : String) : List Diag :=
  orderLoop (orderedHeaders raw) (orderedHeaders raw) 0

/-! ## Date, status, updated, category checks -/

/-- One iteration of the `HEADER_DATES.forEach` loop: if the header is
present, its value is cast to string (`preamble[dateHeader] as string`) and
`isValidDate` is applied; calling `.match` on a non-string would throw,
modelled as `Except.error`. -/
def dateCheckOneE (now : JsNow) (fields : List (String × JsValue)) (h : String) :
    Except String (List Diag) :=
  match jsFind fields h with
  | none => .ok []
  | some (.str s) => .ok (if isValidDate now s then [] else [Diag.invalidDate h])
  | some _ => .error "TypeError: data.match is not a function"

/-- The `HEADER_DATES.forEach` loop (`created` then `updated`). -/
def dateDiagsE (now : JsNow) (fields : List (String × JsValue)) :
    Except String (List Diag) :=
  match dateCheckOneE now fields "created" with
  | .error e => .error e
  | .ok a =>
    match dateCheckOneE now fields "updated" with
    | .error e => .error e
    | .ok b => .ok (a ++ b)

/-- `STATUES.has(v)` / `CATEGORIES.has(v)` where `v` is a JS value: a `Set`
of strings contains a non-string value only by reference, which a freshly
parsed value never is, so only string values can be members. -/
def jsSetHasString (elems : List String) (v : JsValue) : Bool :=
  match v with
  | .str s => elems.contains s
  | _ => false

/-- The status enum check. -/
def statusDiags (fields : List (String × JsValue)) : List Diag :=
  match jsFind fields "status" with
  | none => []
  | some v => if jsSetHasString STATUES v then [] else [Diag.invalidStatus]

/-- The conditional-updated check: `preamble.status === "living" &&
!("updated" in preamble)`. -/
def updatedDiags (fields : List (String × JsValue)) : List Diag :=
  if jsFind fields "status" = some (JsValue.str "living") ∧
     jsFind fields "updated" = none
  then [Diag.missingUpdated] else []

/-- The category enum check. -/
def categoryDiags (fields : List (String × JsValue)) : List Diag :=
  match jsFind fields "category" with
  | none => []
  | some v => if jsSetHasString CATEGORIES v then [] else [Diag.invalidCategory]

/-! ## The author check -/

/-- `RegExp.prototype.exec` result length for `AUTHOR`: the full match plus
its two capture groups, counted whether or not they participated. -/
def AUTHOR_MATCH_LENGTH : Nat := 3

/-- The `for (const author of authors)` loop carrying `hasGithub`: a failed
match reports, sets `hasGithub`, and breaks; a successful match runs
`if (match.length >= 2) hasGithub = true`. -/
def authorLoop : Bool → List String → Bool × List Diag
  | hg, [] => (hg, [])
  | hg, a :: rest =>
    if authorMatches (jsTrim a) then
      authorLoop (if AUTHOR_MATCH_LENGTH ≥ 2 then true else hg) rest
    else (true, [Diag.malformedAuthor])

/-- The whole author check on the value of the `author` header: the loop
diagnostics, then the needs-a-handle diagnostic when `hasGithub` stayed
false. -/
def authorCheck (author : String) : List Diag :=
  (authorLoop false (jsSplitComma author)).2 ++
    (if (authorLoop false (jsSplitComma author)).1 then [] else [Diag.noGithub])

/-- The author check as run by the handler: only when `"author" in preamble`;
the value is cast to string for `.split`, which would throw on a
non-string. -/
def authorCheckE (fields : List (String × JsValue)) : Except String (List Diag) :=
  match jsFind fields "author" with
  | none => .ok []
  | some (.str s) => .ok (authorCheck s)
  | some _ => .error "TypeError: preamble.author.split is not a function"

/-! ## The handler -/

/-- Everything after the try/catch block, in source report order: required,
unknown, order, dates, status, updated, category, author. -/
def fieldChecksE (now : JsNow) (raw : String) (fields : List (String × JsValue)) :
    Except String (List Diag) :=
  match dateDiagsE now fields with
  | .error e => .error e
  | .ok dateDs =>
    match authorCheckE fields with
    | .error e => .error e
    | .ok authorDs =>
      .ok (requiredDiags fields ++ unknownDiags fields ++ orderCheck raw ++
           dateDs ++ statusDiags fields ++ updatedDiags fields ++
           categoryDiags fields ++ authorDs)

/-- The `yaml` handler of the rule on a node of kind `yaml` with raw text
`raw` whose `YAML.parse` outcome is `outcome`: the try block catches parse
and narrowing errors and reports the single YAML diagnostic; an `Except.ok`
result is the sequence of reported diagnostics, an `Except.error` would be
an unhandled fault escaping to the caller. -/
def runYaml (now : JsNow) (raw : String) (outcome : ParseOutcome) :
    Except String (List Diag) :=
  match outcome with
  | .parseError => .ok [Diag.yamlInvalid]
  | .value v =>
    match assertIsPreamble v with
    | .error _ => .ok [Diag.yamlInvalid]
    | .ok fields => fieldChecksE now raw fields

/-- Scalars and `null`: the decoded values `assertIsPreamble` actually
rejects as non-objects (arrays pass, since `typeof [] === "object"`). -/
def decodesNonObject : TopValue → Bool
  | .scalarNum _ => true
  | .scalarStr _ => true
  | .scalarBool _ => true
  | .nullTop => true
  | .arrTop _ => false
  | .objTop _ => false

/-! ## Helper lemmas -/

theorem splitOnPred_ne_nil (p : Char → Bool) : ∀ cs, splitOnPred p cs ≠ []
  | [] => by simp [splitOnPred]
  | c :: rest => by
    simp only [splitOnPred]
    split
    · simp
    · split <;> simp

theorem jsSplitComma_ne_nil (s : String) : jsSplitComma s ≠ [] := by
  unfold jsSplitComma
  intro h
  exact splitOnPred_ne_nil (fun c => c == ',') s.data (List.map_eq_nil_iff.mp h)

theorem authorLoop_fst_of_true : ∀ l, (authorLoop true l).1 = true
  | [] => rfl
  | a :: rest => by
    simp only [authorLoop]
    split
    · exact authorLoop_fst_of_true rest
    · rfl

theorem authorLoop_fst_cons (hg : Bool) (a : String) (rest : List String) :
    (authorLoop hg (a :: rest)).1 = true := by
  simp only [authorLoop]
  split
  · exact authorLoop_fst_of_true rest
  · rfl

theorem authorLoop_snd_malformed :
    ∀ (l : List String) (hg : Bool), ∀ d ∈ (authorLoop hg l).2, d = Diag.malformedAuthor
  | [], _ => by simp [authorLoop]
  | a :: rest, hg => by
    simp only [authorLoop]
    split
    · exact authorLoop_snd_malformed rest _
    · simp

theorem mem_authorCheck (s : String) (d : Diag) (hd : d ∈ authorCheck s) :
    d = Diag.malformedAuthor ∨ d = Diag.noGithub := by
  unfold authorCheck at hd
  rcases List.mem_append.mp hd with h | h
  · exact Or.inl (authorLoop_snd_malformed _ _ _ h)
  · right
    rcases Decidable.em ((authorLoop false (jsSplitComma s)).1 = true) with ht | hf
    · simp [ht] at h
    · simp [Bool.not_eq_true] at hf
      simp [hf] at h
      exact h

theorem authorLoop_pre_bad (bad : String) (post : List String)
    (hbad : authorMatches (jsTrim bad) = false) :
    ∀ (pre : List String) (hg : Bool), (∀ a ∈ pre, authorMatches (jsTrim a) = true) →
      authorLoop hg (pre ++ bad :: post) = (true, [Diag.malformedAuthor])
  | [], hg, _ => by simp only [List.nil_append, authorLoop, hbad]; simp
  | a :: pre, hg, hpre => by
    have ha : authorMatches (jsTrim a) = true := hpre a (by simp)
    simp only [List.cons_append, authorLoop, ha, if_true]
    exact authorLoop_pre_bad bad post hbad pre _ (fun x hx => hpre x (by simp [hx]))

theorem checkTypes_ok_iff : ∀ l : List (String × JsValue),
    checkTypes l = .ok () ↔ ∀ p ∈ l, ∀ t, headerTypeOf p.1 = some t → typeofJs p.2 = t
  | [] => by simp [checkTypes]
  | (h, v) :: rest => by
    have IH := checkTypes_ok_iff rest
    simp only [checkTypes]
    cases hht : headerTypeOf h with
    | none =>
      rw [IH]
      constructor
      · intro hall p hp t ht
        rcases List.mem_cons.mp hp with rfl | hp'
        · rw [hht] at ht; cases ht
        · exact hall p hp' t ht
      · intro hall p hp t ht
        exact hall p (List.mem_cons_of_mem _ hp) t ht
    | some t =>
      dsimp only
      by_cases hvt : typeofJs v = t
      · rw [if_pos hvt, IH]
        constructor
        · intro hall p hp t' ht'
          rcases List.mem_cons.mp hp with rfl | hp'
          · rw [hht] at ht'
            injection ht' with ht'
            rw [← ht']
            exact hvt
          · exact hall p hp' t' ht'
        · intro hall p hp t' ht'
          exact hall p (List.mem_cons_of_mem _ hp) t' ht'
      · rw [if_neg hvt]
        constructor
        · intro hcontra; cases hcontra
        · intro hall
          exact absurd (hall (h, v) (List.mem_cons_self _ _) t hht) hvt

theorem assertIsPreamble_ok_typed (v : TopValue) (fields : List (String × JsValue))
    (h : assertIsPreamble v = .ok fields) :
    ∀ p ∈ fields, ∀ t, headerTypeOf p.1 = some t → typeofJs p.2 = t := by
  cases v with
  | objTop f =>
    simp only [assertIsPreamble] at h
    cases hct : checkTypes f with
    | error e => rw [hct] at h; cases h
    | ok u =>
      cases u
      rw [hct] at h
      injection h with h
      subst h
      exact (checkTypes_ok_iff f).mp hct
  | arrTop elems =>
    simp only [assertIsPreamble] at h
    cases hct : checkTypes (arrEntries elems) with
    | error e => rw [hct] at h; cases h
    | ok u =>
      cases u
      rw [hct] at h
      injection h with h
      subst h
      exact (checkTypes_ok_iff (arrEntries elems)).mp hct
  | scalarNum n => cases h
  | scalarStr s => cases h
  | scalarBool b => cases h
  | nullTop => cases h

theorem jsFind_mem (fields : List (String × JsValue)) (k : String) (v : JsValue)
    (h : jsFind fields k = some v) : (k, v) ∈ fields := by
  unfold jsFind at h
  cases hf : fields.find? (fun p => p.1 == k) with
  | none => rw [hf] at h; cases h
  | some p =>
    rw [hf] at h
    injection h with h
    have hmem := List.mem_of_find?_eq_some hf
    have hp := List.find?_some hf
    obtain ⟨a, b⟩ := p
    have ha : a = k := by simpa using hp
    have hb : b = v := h
    subst ha
    subst hb
    exact hmem

theorem typeofJs_eq_string (v : JsValue) (h : typeofJs v = "string") :
    ∃ s, v = JsValue.str s := by
  cases v with
  | str s => exact ⟨s, rfl⟩
  | num n => exact absurd (show ("number" : String) = "string" from h) (by decide)
  | boolv b => exact absurd (show ("boolean" : String) = "string" from h) (by decide)
  | nullv => exact absurd (show ("object" : String) = "string" from h) (by decide)
  | arrv => exact absurd (show ("object" : String) = "string" from h) (by decide)
  | objv => exact absurd (show ("object" : String) = "string" from h) (by decide)

theorem dateCheckOneE_ok (now : JsNow) (fields : List (String × JsValue)) (h : String)
    (htyped : ∀ p ∈ fields, ∀ t, headerTypeOf p.1 = some t → typeofJs p.2 = t)
    (hh : headerTypeOf h = some "string") :
    ∃ ds, dateCheckOneE now fields h = .ok ds ∧ ∀ d ∈ ds, d = Diag.invalidDate h := by
  cases hf : jsFind fields h with
  | none => exact ⟨[], by simp only [dateCheckOneE, hf], by simp⟩
  | some v =>
    have hv : typeofJs v = "string" := htyped (h, v) (jsFind_mem _ _ _ hf) _ hh
    obtain ⟨s, rfl⟩ := typeofJs_eq_string v hv
    refine ⟨if isValidDate now s then [] else [Diag.invalidDate h], ?_, ?_⟩
    · simp only [dateCheckOneE, hf]
    · split <;> simp

theorem dateDiagsE_ok (now : JsNow) (fields : List (String × JsValue))
    (htyped : ∀ p ∈ fields, ∀ t, headerTypeOf p.1 = some t → typeofJs p.2 = t) :
    ∃ ds, dateDiagsE now fields = .ok ds ∧
      ∀ d ∈ ds, ∃ h, h ∈ HEADER_DATES ∧ d = Diag.invalidDate h := by
  obtain ⟨a, ha, hashape⟩ := dateCheckOneE_ok now fields "created" htyped (by decide)
  obtain ⟨b, hb, hbshape⟩ := dateCheckOneE_ok now fields "updated" htyped (by decide)
  refine ⟨a ++ b, by simp only [dateDiagsE, ha, hb], ?_⟩
  intro d hd
  rcases List.mem_append.mp hd with hm | hm
  · exact ⟨"created", by decide, hashape d hm⟩
  · exact ⟨"updated", by decide, hbshape d hm⟩

theorem authorCheckE_ok (fields : List (String × JsValue))
    (htyped : ∀ p ∈ fields, ∀ t, headerTypeOf p.1 = some t → typeofJs p.2 = t) :
    ∃ ds, authorCheckE fields = .ok ds ∧
      ∀ d ∈ ds, d = Diag.malformedAuthor ∨ d = Diag.noGithub := by
  cases hf : jsFind fields "author" with
  | none => exact ⟨[], by simp only [authorCheckE, hf], by simp⟩
  | some v =>
    have hv : typeofJs v = "string" :=
      htyped ("author", v) (jsFind_mem _ _ _ hf) _
        (show headerTypeOf "author" = some "string" by decide)
    obtain ⟨s, rfl⟩ := typeofJs_eq_string v hv
    exact ⟨authorCheck s, by simp only [authorCheckE, hf],
           fun d hd => mem_authorCheck s d hd⟩

theorem fieldChecksE_inv (now : JsNow) (raw : String) (fields : List (String × JsValue))
    (ds : List Diag) (h : fieldChecksE now raw fields = .ok ds) :
    ∃ dateDs authorDs, dateDiagsE now fields = .ok dateDs ∧
      authorCheckE fields = .ok authorDs ∧
      ds = requiredDiags fields ++ unknownDiags fields ++ orderCheck raw ++
           dateDs ++ statusDiags fields ++ updatedDiags fields ++
           categoryDiags fields ++ authorDs := by
  unfold fieldChecksE at h
  cases hd : dateDiagsE now fields with
  | error e => rw [hd] at h; cases h
  | ok dateDs =>
    rw [hd] at h
    cases ha : authorCheckE fields with
    | error e => rw [ha] at h; cases h
    | ok authorDs =>
      rw [ha] at h
      injection h with h
      exact ⟨dateDs, authorDs, rfl, rfl, h.symm⟩

theorem runYaml_isOk (now : JsNow) (raw : String) (o : ParseOutcome) :
    ∃ ds, runYaml now raw o = .ok ds := by
  cases o with
  | parseError => exact ⟨[Diag.yamlInvalid], rfl⟩
  | value v =>
    cases hv : assertIsPreamble v with
    | error e => exact ⟨[Diag.yamlInvalid], by simp only [runYaml, hv]⟩
    | ok fields =>
      have htyped := assertIsPreamble_ok_typed v fields hv
      obtain ⟨dds, hd, _⟩ := dateDiagsE_ok now fields htyped
      obtain ⟨ads, ha, _⟩ := authorCheckE_ok fields htyped
      refine ⟨requiredDiags fields ++ unknownDiags fields ++ orderCheck raw ++ dds ++
              statusDiags fields ++ updatedDiags fields ++ categoryDiags fields ++ ads, ?_⟩
      simp only [runYaml, hv, fieldChecksE, hd, ha]

theorem orderCheck_nil (raw : String) : orderCheck raw = [] := by
  unfold orderCheck orderedHeaders
  cases firstHeaderCapture raw with
  | none => rfl
  | some hd => rfl

theorem mem_requiredDiags (fields : List (String × JsValue)) (d : Diag)
    (hd : d ∈ requiredDiags fields) : ∃ h, d = Diag.missingRequired h := by
  unfold requiredDiags at hd
  rcases List.mem_filterMap.mp hd with ⟨a, _, hfa⟩
  by_cases hc : (jsKeys fields).contains a = true
  · rw [if_pos hc] at hfa; cases hfa
  · rw [if_neg hc] at hfa
    injection hfa with hfa
    exact ⟨a, hfa.symm⟩

theorem mem_unknownDiags (fields : List (String × JsValue)) (d : Diag)
    (hd : d ∈ unknownDiags fields) : ∃ h, d = Diag.unknownHeader h := by
  unfold unknownDiags at hd
  rcases List.mem_filterMap.mp hd with ⟨a, _, hfa⟩
  by_cases hc : HEADER_ALL.contains a = true
  · rw [if_pos hc] at hfa; cases hfa
  · rw [if_neg hc] at hfa
    injection hfa with hfa
    exact ⟨a, hfa.symm⟩

theorem mem_statusDiags (fields : List (String × JsValue)) (d : Diag)
    (hd : d ∈ statusDiags fields) : d = Diag.invalidStatus := by
  unfold statusDiags at hd
  cases hf : jsFind fields "status" with
  | none => rw [hf] at hd; simp at hd
  | some v =>
    rw [hf] at hd
    dsimp only at hd
    split at hd
    · simp at hd
    · simpa using hd

theorem mem_categoryDiags (fields : List (String × JsValue)) (d : Diag)
    (hd : d ∈ categoryDiags fields) : d = Diag.invalidCategory := by
  unfold categoryDiags at hd
  cases hf : jsFind fields "category" with
  | none => rw [hf] at hd; simp at hd
  | some v =>
    rw [hf] at hd
    dsimp only at hd
    split at hd
    · simp at hd
    · simpa using hd

theorem mem_updatedDiags (fields : List (String × JsValue)) (d : Diag)
    (hd : d ∈ updatedDiags fields) : d = Diag.missingUpdated := by
  unfold updatedDiags at hd
  split at hd
  · simpa using hd
  · simp at hd

theorem updatedDiags_mem_iff (fields : List (String × JsValue)) :
    Diag.missingUpdated ∈ updatedDiags fields ↔
      (jsFind fields "status" = some (JsValue.str "living") ∧
       jsFind fields "updated" = none) := by
  unfold updatedDiags
  split
  · rename_i hcond; simp [hcond]
  · rename_i hcond; simp [hcond]

theorem requiredDiags_nodup (fields : List (String × JsValue)) :
    (requiredDiags fields).Nodup := by
  unfold requiredDiags
  refine List.Nodup.filterMap ?_ (by decide)
  intro a a' b hb hb'
  simp only [Option.mem_def] at hb hb'
  split at hb
  · cases hb
  · split at hb'
    · cases hb'
    · injection hb with hb
      injection hb' with hb'
      rw [← hb'] at hb
      injection hb

theorem mem_requiredDiags_iff (fields : List (String × JsValue)) (r : String) :
    Diag.missingRequired r ∈ requiredDiags fields ↔
      r ∈ HEADER_REQUIRED ∧ (jsKeys fields).contains r = false := by
  unfold requiredDiags
  rw [List.mem_filterMap]
  constructor
  · rintro ⟨a, ha, hfa⟩
    split at hfa
    · cases hfa
    · rename_i hca
      injection hfa with hfa
      injection hfa with hfa
      subst hfa
      refine ⟨ha, ?_⟩
      cases hcb : (jsKeys fields).contains a
      · rfl
      · exact absurd hcb hca
  · rintro ⟨hr, hc⟩
    refine ⟨r, hr, ?_⟩
    rw [hc]
    simp

theorem count_requiredDiags (fields : List (String × JsValue)) (r : String) :
    (requiredDiags fields).count (Diag.missingRequired r)
      = if r ∈ HEADER_REQUIRED ∧ (jsKeys fields).contains r = false then 1 else 0 := by
  by_cases hc : r ∈ HEADER_REQUIRED ∧ (jsKeys fields).contains r = false
  · rw [if_pos hc]
    exact List.count_eq_one_of_mem (requiredDiags_nodup fields)
      ((mem_requiredDiags_iff fields r).mpr hc)
  · rw [if_neg hc]
    exact List.count_eq_zero.mpr (fun hmem => hc ((mem_requiredDiags_iff fields r).mp hmem))

theorem dateCheckOneE_shape (now : JsNow) (fields : List (String × JsValue)) (h : String)
    (a : List Diag) (ha : dateCheckOneE now fields h = .ok a) :
    ∀ d ∈ a, d = Diag.invalidDate h := by
  unfold dateCheckOneE at ha
  cases hf : jsFind fields h with
  | none =>
    rw [hf] at ha
    injection ha with ha
    subst ha
    simp
  | some v =>
    rw [hf] at ha
    cases v with
    | str s =>
      injection ha with ha
      subst ha
      split <;> simp
    | num n => cases ha
    | boolv b => cases ha
    | nullv => cases ha
    | arrv => cases ha
    | objv => cases ha

theorem dateDiagsE_shape (now : JsNow) (fields : List (String × JsValue)) (ds : List Diag)
    (h : dateDiagsE now fields = .ok ds) :
    ∀ d ∈ ds, ∃ x, x ∈ HEADER_DATES ∧ d = Diag.invalidDate x := by
  unfold dateDiagsE at h
  cases h1 : dateCheckOneE now fields "created" with
  | error e => rw [h1] at h; cases h
  | ok a =>
    rw [h1] at h
    cases h2 : dateCheckOneE now fields "updated" with
    | error e => rw [h2] at h; cases h
    | ok b =>
      rw [h2] at h
      injection h with h
      subst h
      intro d hd
      rcases List.mem_append.mp hd with hm | hm
      · exact ⟨"created", by decide, dateCheckOneE_shape now fields "created" a h1 d hm⟩
      · exact ⟨"updated", by decide, dateCheckOneE_shape now fields "updated" b h2 d hm⟩

theorem authorCheckE_shape (fields : List (String × JsValue)) (ds : List Diag)
    (h : authorCheckE fields = .ok ds) :
    ∀ d ∈ ds, d = Diag.malformedAuthor ∨ d = Diag.noGithub := by
  unfold authorCheckE at h
  cases hf : jsFind fields "author" with
  | none =>
    rw [hf] at h
    injection h with h
    subst h
    simp
  | some v =>
    rw [hf] at h
    cases v with
    | str s =>
      injection h with h
      subst h
      exact fun d hd => mem_authorCheck s d hd
    | num n => cases h
    | boolv b => cases h
    | nullv => cases h
    | arrv => cases h
    | objv => cases h

theorem fieldChecksE_shape (now : JsNow) (raw : String) (fields : List (String × JsValue))
    (ds : List Diag) (h : fieldChecksE now raw fields = .ok ds) (d : Diag) (hd : d ∈ ds) :
    (∃ x, d = Diag.missingRequired x) ∨ (∃ x, d = Diag.unknownHeader x) ∨
    (∃ x, x ∈ HEADER_DATES ∧ d = Diag.invalidDate x) ∨ d = Diag.invalidStatus ∨
    d = Diag.missingUpdated ∨ d = Diag.invalidCategory ∨
    d = Diag.malformedAuthor ∨ d = Diag.noGithub := by
  obtain ⟨dds, ads, hdds, hads, rfl⟩ := fieldChecksE_inv now raw fields ds h
  rw [orderCheck_nil] at hd
  simp only [List.append_nil, List.mem_append] at hd
  rcases hd with ((((((h1 | h2) | h3) | h4) | h5) | h6) | h7)
  · exact Or.inl (mem_requiredDiags fields d h1)
  · exact Or.inr (Or.inl (mem_unknownDiags fields d h2))
  · exact Or.inr (Or.inr (Or.inl (dateDiagsE_shape now fields dds hdds d h3)))
  · exact Or.inr (Or.inr (Or.inr (Or.inl (mem_statusDiags fields d h4))))
  · exact Or.inr (Or.inr (Or.inr (Or.inr (Or.inl (mem_updatedDiags fields d h5)))))
  · exact Or.inr (Or.inr (Or.inr (Or.inr (Or.inr (Or.inl (mem_categoryDiags fields d h6))))))
  · rcases authorCheckE_shape fields ads hads d h7 with hm | hm
    · exact Or.inr (Or.inr (Or.inr (Or.inr (Or.inr (Or.inr (Or.inl hm))))))
    · exact Or.inr (Or.inr (Or.inr (Or.inr (Or.inr (Or.inr (Or.inr hm))))))

/-! ## Claim theorems -/

/-- Claim C9: for every input raw block of the declared preamble kind, the
validation call never raises an unhandled fault to its caller regardless of
how malformed the block text or decoded values are: the try/catch converts
decode faults into one report, and the string casts after it cannot fail
because `assertIsPreamble` has already pinned the types of the date and
author fields; the only externally visible effect is the returned report
sequence. -/
theorem yaml_handler_never_faults (now : JsNow) (raw : String) (o : ParseOutcome) :
    ∃ ds, runYaml now raw o = Except.ok ds :=
  runYaml_isOk now raw o

/-- Claim C10 (implicit): for every input whatsoever, the order-check
diagnostic is never emitted: the extraction regex lacks the global flag so
at most the first header line is captured, and the guard tests the expected
canonical header name with the JS `in` operator against the extracted-headers
array, which only has index keys and array-object properties, so the report
branch is unreachable. -/
theorem order_diagnostic_never_emitted (now : JsNow) (raw : String) (o : ParseOutcome)
    (ds : List Diag) (h : runYaml now raw o = Except.ok ds) (x : String) :
    Diag.orderViolation x ∉ ds := by
  intro hmem
  cases o with
  | parseError =>
    simp only [runYaml] at h
    injection h with h
    subst h
    simp at hmem
  | value v =>
    cases hv : assertIsPreamble v with
    | error e =>
      simp only [runYaml, hv] at h
      injection h with h
      subst h
      simp at hmem
    | ok fields =>
      simp only [runYaml, hv] at h
      rcases fieldChecksE_shape now raw fields ds h _ hmem with
        ⟨y, hy⟩ | ⟨y, hy⟩ | ⟨y, _, hy⟩ | hy | hy | hy | hy | hy <;> cases hy

/-- Witness for the order-diagnostic theorem at a concrete input: a fully
valid preamble with its first two headers swapped in the raw text produces
no diagnostics at all, in particular no order diagnostic. -/
theorem order_diagnostic_never_emitted_witness :
    runYaml ⟨2026, 10, 11⟩
        "title: T\nsip: 1\nstatus: Draft\ncategory: Core\nauthor: Ann (@ann)\ncreated: 2020-01-01"
        (.value (.objTop [("title", JsValue.str "T"), ("sip", JsValue.num 1),
          ("status", JsValue.str "Draft"), ("category", JsValue.str "Core"),
          ("author", JsValue.str "Ann (@ann)"), ("created", JsValue.str "2020-01-01")]))
      = Except.ok [] ∧
    Diag.orderViolation "title" ∉ ([] : List Diag) :=
  ⟨rfl, order_diagnostic_never_emitted ⟨2026, 10, 11⟩
    "title: T\nsip: 1\nstatus: Draft\ncategory: Core\nauthor: Ann (@ann)\ncreated: 2020-01-01"
    (.value (.objTop [("title", JsValue.str "T"), ("sip", JsValue.num 1),
      ("status", JsValue.str "Draft"), ("category", JsValue.str "Core"),
      ("author", JsValue.str "Ann (@ann)"), ("created", JsValue.str "2020-01-01")]))
    [] rfl "title"⟩

/-- Claim C1 (code bug): canonically ordered headers indeed produce no order
diagnostic, but swapping two adjacent headers (`sip` and `title`) in an
otherwise fully valid preamble also produces zero diagnostics instead of the
claimed single order diagnostic: the extraction regex lacks the global flag
and the guard uses the JS `in` operator on an array, so the order-report
branch never runs. -/
theorem order_swap_emits_no_diagnostic :
    orderCheck "sip: 1\ntitle: T\nstatus: Draft\ncategory: Core\nauthor: Ann (@ann)\ncreated: 2020-01-01" = [] ∧
    runYaml ⟨2026, 10, 11⟩
        "title: T\nsip: 1\nstatus: Draft\ncategory: Core\nauthor: Ann (@ann)\ncreated: 2020-01-01"
        (.value (.objTop [("title", JsValue.str "T"), ("sip", JsValue.num 1),
          ("status", JsValue.str "Draft"), ("category", JsValue.str "Core"),
          ("author", JsValue.str "Ann (@ann)"), ("created", JsValue.str "2020-01-01")]))
      = Except.ok [] :=
  ⟨rfl, rfl⟩

/-- Claim C2 (code bug): an author field whose comma-separated authors all
match the pattern but none of which contributes a `(@handle)` capture (e.g.
the single author "Jane Doe") is claimed to trigger the needs-a-handle
diagnostic.  The code can never emit it: the JS match result array always
has length 3 (the full match plus two capture slots, participating or not),
so `match.length >= 2` sets `hasGithub` on every successful match, and a
failed match also sets it before breaking. -/
theorem author_no_handle_diagnostic_never_emitted :
    authorCheck "Jane Doe" = [] ∧ ∀ s, Diag.noGithub ∉ authorCheck s := by
  constructor
  · rfl
  · intro s hmem
    rcases List.exists_cons_of_ne_nil (jsSplitComma_ne_nil s) with ⟨a, rest, hsplit⟩
    unfold authorCheck at hmem
    rw [hsplit] at hmem
    rcases List.mem_append.mp hmem with hm | hm
    · exact absurd (authorLoop_snd_malformed _ _ _ hm) (by simp)
    · rw [authorLoop_fst_cons] at hm
      simp at hm

/-- Claim C7: the comma-separated author strings are scanned in order; the
first trimmed author failing the pattern causes exactly one malformed-author
diagnostic and ends the scan (the authors after it, `post`, do not influence
the result, and no other author diagnostic is emitted). -/
theorem author_malformed_stops_scanning (s : String) (pre : List String) (bad : String)
    (post : List String) (hsplit : jsSplitComma s = pre ++ bad :: post)
    (hpre : ∀ a ∈ pre, authorMatches (jsTrim a) = true)
    (hbad : authorMatches (jsTrim bad) = false) :
    authorCheck s = [Diag.malformedAuthor] := by
  unfold authorCheck
  rw [hsplit, authorLoop_pre_bad bad post hbad pre false hpre]
  rfl

/-- Witness for the malformed-author theorem at a concrete input. -/
theorem author_malformed_stops_scanning_witness :
    (jsSplitComma "Jane Doe, ###bad###, Ann (@ann)"
        = ["Jane Doe"] ++ " ###bad###" :: [" Ann (@ann)"]) ∧
    (∀ a ∈ ["Jane Doe"], authorMatches (jsTrim a) = true) ∧
    authorMatches (jsTrim " ###bad###") = false ∧
    authorCheck "Jane Doe, ###bad###, Ann (@ann)" = [Diag.malformedAuthor] :=
  ⟨by decide, by decide, by decide,
   author_malformed_stops_scanning "Jane Doe, ###bad###, Ann (@ann)" ["Jane Doe"]
     " ###bad###" [" Ann (@ann)"] (by decide) (by decide) (by decide)⟩

/-- Claim C3 counterexample: a block that decodes to a JS array refutes the
claim as stated: `typeof [] === "object"`, so the array passes the object
guard of `assertIsPreamble`; instead of one YAML diagnostic with no field
checks, the field-level checks run and produce seven diagnostics (six
missing required headers and the unknown index key "0"). -/
theorem yaml_nonobject_counterexample :
    runYaml ⟨2026, 10, 11⟩ "" (.value (.arrTop [JsValue.num 1]))
      = Except.ok [Diag.missingRequired "sip", Diag.missingRequired "title",
          Diag.missingRequired "status", Diag.missingRequired "category",
          Diag.missingRequired "author", Diag.missingRequired "created",
          Diag.unknownHeader "0"] ∧
    ([Diag.missingRequired "sip", Diag.missingRequired "title",
      Diag.missingRequired "status", Diag.missingRequired "category",
      Diag.missingRequired "author", Diag.missingRequired "created",
      Diag.unknownHeader "0"] : List Diag).length ≠ 1 :=
  ⟨rfl, by decide⟩

/-- Claim C3 (amended): for every raw block text whose parse fails, or whose
decoded value is a scalar or null, exactly one diagnostic — the YAML
diagnostic — is emitted and no field-level check runs; a decoded array,
whose JS `typeof` is "object", instead passes the decode step and the
field-level checks run on its index keys. -/
theorem yaml_nonobject_single_diagnostic (now : JsNow) (raw : String) (o : ParseOutcome)
    (h : o = ParseOutcome.parseError ∨
         ∃ v, o = ParseOutcome.value v ∧ decodesNonObject v = true) :
    runYaml now raw o = Except.ok [Diag.yamlInvalid] := by
  rcases h with rfl | ⟨v, rfl, hv⟩
  · rfl
  · cases v with
    | scalarNum n => rfl
    | scalarStr s => rfl
    | scalarBool b => rfl
    | nullTop => rfl
    | arrTop elems => cases hv
    | objTop fields => cases hv

/-- Witness for the amended non-object theorem at a concrete scalar input. -/
theorem yaml_nonobject_single_diagnostic_witness :
    (ParseOutcome.value (TopValue.scalarStr "SIP") = ParseOutcome.parseError ∨
      ∃ v, ParseOutcome.value (TopValue.scalarStr "SIP") = ParseOutcome.value v ∧
        decodesNonObject v = true) ∧
    runYaml ⟨2026, 10, 11⟩ "SIP" (.value (.scalarStr "SIP"))
      = Except.ok [Diag.yamlInvalid] :=
  ⟨Or.inr ⟨TopValue.scalarStr "SIP", rfl, rfl⟩,
   yaml_nonobject_single_diagnostic ⟨2026, 10, 11⟩ "SIP" (.value (.scalarStr "SIP"))
     (Or.inr ⟨TopValue.scalarStr "SIP", rfl, rfl⟩)⟩

/-- Claim C4: on a successfully decoded object, each present recognized
field is validated against its declared primitive type (the identifier
field `sip` is declared "number", so a string value is rejected); the
decode step succeeds exactly when every present field with a declared type
has it, and any violation makes the whole run produce the single decode
diagnostic, skipping all remaining checks. -/
theorem type_mismatch_single_diagnostic (now : JsNow) (raw : String)
    (fields : List (String × JsValue)) :
    headerTypeOf "sip" = some "number" ∧
    (assertIsPreamble (.objTop fields) = .ok fields ↔
      ∀ p ∈ fields, ∀ t, headerTypeOf p.1 = some t → typeofJs p.2 = t) ∧
    ((∃ p ∈ fields, ∃ t, headerTypeOf p.1 = some t ∧ typeofJs p.2 ≠ t) →
      runYaml now raw (.value (.objTop fields)) = Except.ok [Diag.yamlInvalid]) := by
  refine ⟨by decide, ⟨?_, ?_⟩, ?_⟩
  · intro hok
    exact assertIsPreamble_ok_typed _ _ hok
  · intro hall
    have hct : checkTypes fields = .ok () := (checkTypes_ok_iff fields).mpr hall
    simp only [assertIsPreamble, hct]
  · rintro ⟨p, hp, t, ht, hvt⟩
    cases hct : checkTypes fields with
    | ok u =>
      cases u
      exact absurd ((checkTypes_ok_iff fields).mp hct p hp t ht) hvt
    | error e =>
      simp only [runYaml, assertIsPreamble, hct]

/-- Witness for the type-mismatch theorem: a string-valued `sip` field. -/
theorem type_mismatch_single_diagnostic_witness :
    (∃ p ∈ [("sip", JsValue.str "1")], ∃ t, headerTypeOf p.1 = some t ∧ typeofJs p.2 ≠ t) ∧
    runYaml ⟨2026, 10, 11⟩ "" (.value (.objTop [("sip", JsValue.str "1")]))
      = Except.ok [Diag.yamlInvalid] :=
  ⟨⟨("sip", JsValue.str "1"), by decide, "number", by decide, by decide⟩,
   (type_mismatch_single_diagnostic ⟨2026, 10, 11⟩ "" [("sip", JsValue.str "1")]).2.2
     ⟨("sip", JsValue.str "1"), by decide, "number", by decide, by decide⟩⟩

/-- Claim C5: a present date field value is accepted iff it matches the
4-digit-year/2-digit-month/2-digit-day hyphen pattern and each numeric
component is at most the corresponding current-date component, compared
independently (not a calendar comparison); in particular "2024-13-01" is
invalid (month 13 exceeds any real current month), any future year is
invalid, and an earlier calendar date can still be rejected ("2023-12-31"
against current 2024-03-10 fails on the month component); one diagnostic is
emitted per offending present field. -/
theorem date_check_componentwise (now : JsNow) (hm : now.month ≤ 12) :
    (∀ s y m d, matchISO8601 s.data = some (y, m, d) →
      (isValidDate now s = true ↔ (y ≤ now.year ∧ m ≤ now.month ∧ d ≤ now.day))) ∧
    (∀ s, matchISO8601 s.data = none → isValidDate now s = false) ∧
    isValidDate now "2024-13-01" = false ∧
    (∀ s y m d, matchISO8601 s.data = some (y, m, d) → now.year < y →
      isValidDate now s = false) ∧
    isValidDate ⟨2024, 3, 10⟩ "2023-12-31" = false ∧
    (∀ fields ds x s, dateDiagsE now fields = .ok ds → x ∈ HEADER_DATES →
      jsFind fields x = some (JsValue.str s) →
      ds.count (Diag.invalidDate x) = if isValidDate now s then 0 else 1) := by
  have part1 : ∀ s y m d, matchISO8601 s.data = some (y, m, d) →
      (isValidDate now s = true ↔ (y ≤ now.year ∧ m ≤ now.month ∧ d ≤ now.day)) := by
    intro s y m d hp
    unfold isValidDate
    rw [hp]
    simp [and_assoc]
  have part2 : ∀ s, matchISO8601 s.data = none → isValidDate now s = false := by
    intro s hp
    unfold isValidDate
    rw [hp]
  have part3 : isValidDate now "2024-13-01" = false := by
    have hp : matchISO8601 ("2024-13-01".data) = some (2024, 13, 1) := by decide
    cases hval : isValidDate now "2024-13-01" with
    | false => rfl
    | true =>
      have := (part1 _ _ _ _ hp).mp hval
      omega
  have part4 : ∀ s y m d, matchISO8601 s.data = some (y, m, d) → now.year < y →
      isValidDate now s = false := by
    intro s y m d hp hy
    cases hval : isValidDate now s with
    | false => rfl
    | true =>
      have := (part1 _ _ _ _ hp).mp hval
      omega
  have part5 : isValidDate ⟨2024, 3, 10⟩ "2023-12-31" = false := by decide
  refine ⟨part1, part2, part3, part4, part5, ?_⟩
  intro fields ds x s hds hx hfind
  unfold dateDiagsE at hds
  cases h1 : dateCheckOneE now fields "created" with
  | error e => rw [h1] at hds; cases hds
  | ok a =>
    rw [h1] at hds
    cases h2 : dateCheckOneE now fields "updated" with
    | error e => rw [h2] at hds; cases hds
    | ok b =>
      rw [h2] at hds
      injection hds with hds
      subst hds
      rw [List.count_append]
      have hx2 : x = "created" ∨ x = "updated" := by
        simpa [HEADER_DATES] using hx
      rcases hx2 with rfl | rfl
      · have hca : a = if isValidDate now s then [] else [Diag.invalidDate "created"] := by
          unfold dateCheckOneE at h1
          rw [hfind] at h1
          injection h1 with h1
          exact h1.symm
        have hcb : b.count (Diag.invalidDate "created") = 0 :=
          List.count_eq_zero.mpr (fun hmemb => by
            have hsh := dateCheckOneE_shape now fields "updated" b h2 _ hmemb
            injection hsh with hsh
            exact absurd hsh (by decide))
        subst hca
        rw [hcb]
        by_cases hval : isValidDate now s = true
        · simp [hval]
        · simp only [Bool.not_eq_true] at hval
          simp [hval]
      · have hcb : b = if isValidDate now s then [] else [Diag.invalidDate "updated"] := by
          unfold dateCheckOneE at h2
          rw [hfind] at h2
          injection h2 with h2
          exact h2.symm
        have hca : a.count (Diag.invalidDate "updated") = 0 :=
          List.count_eq_zero.mpr (fun hmema => by
            have hsh := dateCheckOneE_shape now fields "created" a h1 _ hmema
            injection hsh with hsh
            exact absurd hsh (by decide))
        subst hcb
        rw [hca]
        by_cases hval : isValidDate now s = true
        · simp [hval]
        · simp only [Bool.not_eq_true] at hval
          simp [hval]

/-- Witness for the date theorem at the concrete current date 2026-10-11. -/
theorem date_check_componentwise_witness :
    ((⟨2026, 10, 11⟩ : JsNow).month ≤ 12) ∧
    isValidDate ⟨2026, 10, 11⟩ "2024-13-01" = false :=
  ⟨by decide, (date_check_componentwise ⟨2026, 10, 11⟩ (by decide)).2.2.1⟩

/-- Claim C6: the conditional-updated diagnostic is emitted exactly when the
status value is the lowercase string "living" and the `updated` key is
absent; the comparison is against lowercase "living" even though the status
enum only contains the capitalized "Living", and this literal mismatch is
preserved. -/
theorem living_updated_conditional (fields : List (String × JsValue)) :
    (Diag.missingUpdated ∈ updatedDiags fields ↔
      (jsFind fields "status" = some (JsValue.str "living") ∧
       jsFind fields "updated" = none)) ∧
    STATUES.contains "living" = false ∧
    STATUES.contains "Living" = true ∧
    (∀ now raw ds, fieldChecksE now raw fields = .ok ds →
      (Diag.missingUpdated ∈ ds ↔
        (jsFind fields "status" = some (JsValue.str "living") ∧
         jsFind fields "updated" = none))) := by
  refine ⟨updatedDiags_mem_iff fields, by decide, by decide, ?_⟩
  intro now raw ds h
  obtain ⟨dds, ads, hdds, hads, rfl⟩ := fieldChecksE_inv now raw fields ds h
  rw [← updatedDiags_mem_iff fields]
  simp only [List.mem_append]
  constructor
  · rintro (((((((h1 | h2) | h3) | h4) | h5) | h6) | h7) | h8)
    · obtain ⟨x, hx⟩ := mem_requiredDiags fields _ h1
      cases hx
    · obtain ⟨x, hx⟩ := mem_unknownDiags fields _ h2
      cases hx
    · rw [orderCheck_nil] at h3
      simp at h3
    · obtain ⟨x, _, hx⟩ := dateDiagsE_shape now fields dds hdds _ h4
      cases hx
    · have hx := mem_statusDiags fields _ h5
      cases hx
    · exact h6
    · have hx := mem_categoryDiags fields _ h7
      cases hx
    · rcases authorCheckE_shape fields ads hads _ h8 with hx | hx <;> cases hx
  · intro hupd
    exact Or.inl (Or.inl (Or.inr hupd))

/-- Witness for the conditional-updated theorem: a preamble whose only field
is `status: "living"`. -/
theorem living_updated_conditional_witness :
    fieldChecksE ⟨2026, 10, 11⟩ "" [("status", JsValue.str "living")]
      = Except.ok [Diag.missingRequired "sip", Diag.missingRequired "title",
          Diag.missingRequired "category", Diag.missingRequired "author",
          Diag.missingRequired "created", Diag.invalidStatus, Diag.missingUpdated] ∧
    Diag.missingUpdated ∈ [Diag.missingRequired "sip", Diag.missingRequired "title",
          Diag.missingRequired "category", Diag.missingRequired "author",
          Diag.missingRequired "created", Diag.invalidStatus, Diag.missingUpdated] :=
  ⟨rfl,
   ((living_updated_conditional [("status", JsValue.str "living")]).2.2.2
       ⟨2026, 10, 11⟩ ""
       [Diag.missingRequired "sip", Diag.missingRequired "title",
        Diag.missingRequired "category", Diag.missingRequired "author",
        Diag.missingRequired "created", Diag.invalidStatus, Diag.missingUpdated]
       rfl).mpr ⟨rfl, rfl⟩⟩

/-- Claim C8: for every successfully decoded preamble, each required field
absent from the parsed keys yields exactly one diagnostic naming it — the
count of the missing-required diagnostic for `r` in the output is 1 exactly
when `r` is required and absent and 0 otherwise, whatever other violations
are present (the required loop iterates all required fields, so several such
diagnostics can coexist in one call). -/
theorem required_missing_diagnostics (now : JsNow) (raw : String)
    (fields : List (String × JsValue)) (ds : List Diag)
    (h : fieldChecksE now raw fields = .ok ds) (r : String) :
    ds.count (Diag.missingRequired r)
      = if r ∈ HEADER_REQUIRED ∧ (jsKeys fields).contains r = false then 1 else 0 := by
  obtain ⟨dds, ads, hdds, hads, rfl⟩ := fieldChecksE_inv now raw fields ds h
  rw [orderCheck_nil]
  simp only [List.append_nil, List.count_append]
  rw [count_requiredDiags]
  have h2 : (unknownDiags fields).count (Diag.missingRequired r) = 0 :=
    List.count_eq_zero.mpr (fun hm => by
      obtain ⟨x, hx⟩ := mem_unknownDiags fields _ hm
      cases hx)
  have h3 : dds.count (Diag.missingRequired r) = 0 :=
    List.count_eq_zero.mpr (fun hm => by
      obtain ⟨x, _, hx⟩ := dateDiagsE_shape now fields dds hdds _ hm
      cases hx)
  have h4 : (statusDiags fields).count (Diag.missingRequired r) = 0 :=
    List.count_eq_zero.mpr (fun hm => by
      have hx := mem_statusDiags fields _ hm
      cases hx)
  have h5 : (updatedDiags fields).count (Diag.missingRequired r) = 0 :=
    List.count_eq_zero.mpr (fun hm => by
      have hx := mem_updatedDiags fields _ hm
      cases hx)
  have h6 : (categoryDiags fields).count (Diag.missingRequired r) = 0 :=
    List.count_eq_zero.mpr (fun hm => by
      have hx := mem_categoryDiags fields _ hm
      cases hx)
  have h7 : ads.count (Diag.missingRequired r) = 0 :=
    List.count_eq_zero.mpr (fun hm => by
      rcases authorCheckE_shape fields ads hads _ hm with hx | hx <;> cases hx)
  rw [h2, h3, h4, h5, h6, h7]
  omega

/-- Witness for the required-field theorem: a preamble whose only field is
`title`, so `sip` is among the missing required fields. -/
theorem required_missing_diagnostics_witness :
    fieldChecksE ⟨2026, 10, 11⟩ "" [("title", JsValue.str "T")]
      = Except.ok [Diag.missingRequired "sip", Diag.missingRequired "status",
          Diag.missingRequired "category", Diag.missingRequired "author",
          Diag.missingRequired "created"] ∧
    ([Diag.missingRequired "sip", Diag.missingRequired "status",
      Diag.missingRequired "category", Diag.missingRequired "author",
      Diag.missingRequired "created"].count (Diag.missingRequired "sip")
      = if "sip" ∈ HEADER_REQUIRED ∧
           (jsKeys [("title", JsValue.str "T")]).contains "sip" = false
        then 1 else 0) :=
  ⟨rfl,
   required_missing_diagnostics ⟨2026, 10, 11⟩ "" [("title", JsValue.str "T")]
     [Diag.missingRequired "sip", Diag.missingRequired "status",
      Diag.missingRequired "category", Diag.missingRequired "author",
      Diag.missingRequired "created"] rfl "sip"⟩

/-- Witness: the no-handle diagnostic is absent for the concrete author
"Jane Doe". -/
theorem author_no_handle_diagnostic_never_emitted_witness :
    Diag.noGithub ∉ authorCheck "Jane Doe" :=
  author_no_handle_diagnostic_never_emitted.2 "Jane Doe"
